import Mathlib

/-!
Verification of the hardware capability-detection and control layer of
`powerplan` (`src/cpu.py`), as a shallow embedding in Lean 4.

The filesystem is modelled explicitly: the content of each control file the
code reads appears as a field or function argument, and each control
operation returns the list of writes it issues (target, value) instead of
performing them.  Python exceptions are modelled with `Except PyError`.
Python `float` arithmetic is modelled with exact rationals `ℚ`, and Python
`int` with `ℤ`/`ℕ` (core ids and file contents are non-negative).
-/

/-- Python exceptions raised by the modelled code.  `invalidValue` models a
failed `assert` validating a requested value (the spec's `InvalidValueError`);
`keyError` models a `dict` lookup of an absent key; `notFound` a read of an
absent file; `attributeError` a method call on `None`. -/
inductive PyError where
  | invalidValue
  | keyError (key : String)
  | notFound
  | attributeError
deriving DecidableEq, Repr

/-! ## RAPL energy meter (`class Rapl`, src/cpu.py lines 154-186) -/

/-- State of the `Rapl` object: `enabled` is set at construction;
`max_energy` is `max_energy_range_uj`, `last_energy` the previous
`energy_uj` sample, `last_time` the previous `time()` sample. -/
structure Rapl where
  enabled : Bool
  max_energy : ℤ
  last_energy : ℤ
  last_time : ℚ
deriving Repr

/-- Model of `Rapl.read_power` (src/cpu.py lines 167-186).  The freshly sampled
counter value `current_energy` (content of `energy_uj`) and clock value
`current_time` are passed as arguments; the returned pair is the computed
power and the updated object state. -/
def Rapl.read_power (r : Rapl) (current_energy : ℤ) (current_time : ℚ) : ℚ × Rapl :=
  if r.enabled = false then (-1, r)
  else
    let energy_delta : ℤ := current_energy - r.last_energy
    let time_delta : ℚ := current_time - r.last_time
    let energy_delta : ℤ :=
      if current_energy < r.last_energy then energy_delta + r.max_energy else energy_delta
    let current_power : ℚ := (energy_delta : ℚ) / time_delta / 10 ^ 6
    (current_power, { r with last_energy := current_energy, last_time := current_time })

/-! ## Turbo control (src/cpu.py lines 308-317 and 403-431) -/

/-- The turbo-related entries of the module-level `CPU` dict.
`turbo_path = true` means `CPU['turbo_path']` holds an existing file path
(`false` means it was set to `None`).  `turbo_inverse` and `turbo_allowed`
are `none` when the corresponding dict key was never assigned. -/
structure TurboConf where
  turbo_path : Bool
  turbo_inverse : Option Bool
  turbo_allowed : Option Bool
deriving DecidableEq, Repr

/-- Initialization of the turbo entries (src/cpu.py lines 403-431): the three
candidate control files are checked in priority order; `write_ok` is the
outcome of the write-permission probe (lines 422-431).  When no file exists,
only `turbo_path` is assigned (to `None`). -/
def turbo_init (pstate cpufreq_boost amd_legacy write_ok : Bool) : TurboConf :=
  if pstate then ⟨true, some true, some write_ok⟩
  else if cpufreq_boost then ⟨true, some false, some write_ok⟩
  else if amd_legacy then ⟨true, some false, some write_ok⟩
  else ⟨false, none, none⟩

/-- Model of `read_turbo_state` (src/cpu.py lines 308-313): `file` is the integer
content of the turbo control file.  `turbo_inverse` is only consulted when a
turbo path exists, in which case initialization always assigned it. -/
def read_turbo_state (tc : TurboConf) (file : ℕ) : Option Bool :=
  if tc.turbo_path then some (decide (file ≠ 0) ^^ tc.turbo_inverse.getD false) else none

/-- Model of `set_turbo_state` (src/cpu.py lines 315-317).  Returns `some v` when the
value `v` was written to the turbo file, `none` when no write was issued.
The dict access `CPU['turbo_allowed']` raises `KeyError` when the key was
never assigned. -/
def set_turbo_state (tc : TurboConf) (file : ℕ) (turbo_state : Bool) :
    Except PyError (Option ℕ) :=
  match tc.turbo_allowed with
  | none => .error (.keyError "turbo_allowed")
  | some allowed =>
    if allowed = true ∧ some turbo_state ≠ read_turbo_state tc file then
      if tc.turbo_path then
        .ok (some (if turbo_state ^^ tc.turbo_inverse.getD false then 1 else 0))
      else .error .attributeError
    else .ok none

/-- Content of the turbo file after a `set_turbo_state` call that returned
write `res` on a stub file whose prior content was `file`. -/
def turbo_file_after (file : ℕ) (res : Option ℕ) : ℕ := res.getD file

/-! ## Governor control (src/cpu.py lines 252-259) -/

/-- The parts of the `CPU` dict and of the filesystem that the governor
operations consult: `governors` is `CPU['governors']`, `governor_file c` the
content of `cpu{c}/cpufreq/scaling_governor`, and `online_cores` the result
of `list_cores('online')`. -/
structure GovConf where
  governors : List String
  governor_file : ℕ → String
  online_cores : List ℕ

/-- Model of `read_governor` (src/cpu.py lines 252-253). -/
def read_governor (conf : GovConf) (core_id : ℕ := 0) : String :=
  conf.governor_file core_id

/-- Model of `set_governor` (src/cpu.py lines 255-259).  Returns the list of writes
`(core_id, value)` issued to `scaling_governor` files; the leading `assert`
is modelled as `invalidValue`. -/
def set_governor (conf : GovConf) (governor : String) :
    Except PyError (List (ℕ × String)) :=
  if governor ∈ conf.governors then
    .ok (if read_governor conf 0 ≠ governor then
          conf.online_cores.map (fun core_id => (core_id, governor))
        else [])
  else .error .invalidValue

example :
    set_governor ⟨["performance", "powersave"], fun _ => "powersave", [0, 1]⟩
      "performance" = .ok [(0, "performance"), (1, "performance")] := rfl

example :
    set_governor ⟨["performance"], fun _ => "powersave", [0]⟩ "ondemand" =
      .error .invalidValue := rfl

/-! ## Physical-core online control (src/cpu.py lines 326-353) -/

/-- The parts of the `CPU` dict and of the filesystem the core on/offlining
operations consult: `thread_siblings` is `CPU['thread_siblings']` (one tuple
of logical core ids per physical core), `online_file c` the boolean value of
`int(cpu{c}/online)`. -/
structure CoreConf where
  thread_siblings : List (List ℕ)
  online_file : ℕ → Bool

/-- The body of `read_physical_core_status` (src/cpu.py lines 328-335) for a
given sibling tuple: core 0's group reports online without touching any
file; otherwise the first sibling's `online` file is consulted. -/
def group_status (core_ids : List ℕ) (file : ℕ → Bool) : Bool :=
  if 0 ∈ core_ids then true else file (core_ids.headD 0)

/-- Model of `read_physical_core_status` (src/cpu.py lines 326-335); its `assert`
bounds the physical core index. -/
def read_physical_core_status (conf : CoreConf) (core_num : ℕ) :
    Except PyError Bool :=
  if core_num < conf.thread_siblings.length then
    .ok (group_status (conf.thread_siblings.getD core_num []) conf.online_file)
  else .error .invalidValue

/-- A write `(c, b)` to `cpu{c}/online` applied to the file state. -/
def applyWrite (file : ℕ → Bool) (w : ℕ × Bool) : ℕ → Bool :=
  fun c => if c = w.1 then w.2 else file c

/-- The loop of `set_physical_cores_online` (src/cpu.py lines 341-353):
`idx` is the running `core_num` of `enumerate`, `groups` the remaining
sibling tuples, `file` the current `online`-file state (writes issued by
earlier iterations are applied before later status reads).  In the loop,
`read_physical_core_status(core_num)` inspects exactly the current tuple
`core_ids`, which is `group_status core_ids file` here. -/
def set_cores_go (file : ℕ → Bool) (num_cores idx : ℕ) :
    List (List ℕ) → List (ℕ × Bool)
  | [] => []
  | core_ids :: rest =>
    let core_online := group_status core_ids file
    let ws : List (ℕ × Bool) :=
      if idx < num_cores then
        if core_online = false then core_ids.map (fun c => (c, true)) else []
      else
        if core_online = true then core_ids.map (fun c => (c, false)) else []
    ws ++ set_cores_go (ws.foldl applyWrite file) num_cores (idx + 1) rest

/-- Model of `set_physical_cores_online` (src/cpu.py lines 337-353).  Returns the
ordered list of writes `(core_id, value)` issued to `cpu{core_id}/online`
files; the leading `assert 0 < num_cores <= physical_cores` is modelled as
`invalidValue`. -/
def set_physical_cores_online (conf : CoreConf) (num_cores : ℕ) :
    Except PyError (List (ℕ × Bool)) :=
  if 0 < num_cores ∧ num_cores ≤ conf.thread_siblings.length then
    .ok (set_cores_go conf.online_file num_cores 0 conf.thread_siblings)
  else .error .invalidValue

example :
    set_physical_cores_online ⟨[[0, 2], [1, 3]], fun _ => true⟩ 1 =
      .ok [(1, false), (3, false)] := rfl

example :
    set_physical_cores_online ⟨[[0, 2], [1, 3]], fun _ => false⟩ 2 =
      .ok [(1, true), (3, true)] := rfl

/-! ## Power supply detection and power draw (src/cpu.py lines 84-99, 140-150,
447-451) -/

/-- The three power files of a detected battery device: `some q` means the
file exists with (rational) numeric content `q`. -/
structure BatFiles where
  power_now : Option ℚ
  current_now : Option ℚ
  voltage_now : Option ℚ

/-- Model of `power_reading_method` (src/cpu.py lines 84-99).  Returns the literal
strings used by the code, `none` for the unavailable marker. -/
def power_reading_method (bat_device_path : Option BatFiles) : Option String :=
  match bat_device_path with
  | none => none
  | some bat =>
    if bat.power_now.isSome then some "power"
    else if bat.current_now.isSome ∧ bat.voltage_now.isSome then
      some "current_and_voltage"
    else none

/-- The power-supply entries of the `CPU` dict (src/cpu.py lines 447-451):
`ac_path` and `bat_path` come from `power_supply_detection()`, and
`power_reading_method` is computed from `bat_path` at initialization. -/
structure PsuConf where
  ac_path : Option Unit
  bat_path : Option BatFiles
  reading_method : Option String

/-- Lines 448-451 of src/cpu.py: store the detected paths and derive
`CPU['power_reading_method']`. -/
def psu_init (ac_path : Option Unit) (bat_path : Option BatFiles) : PsuConf :=
  ⟨ac_path, bat_path, power_reading_method bat_path⟩

/-- Model of `read_power_draw` (src/cpu.py lines 140-150).  A `.with_name(...)` call
on a `None` battery path raises `AttributeError`; reading an absent file
raises `FileNotFoundError`. -/
def read_power_draw (conf : PsuConf) : Except PyError ℚ :=
  if conf.reading_method = some "power" then
    match conf.bat_path with
    | none => .error .attributeError
    | some bat =>
      match bat.power_now with
      | none => .error .notFound
      | some v => .ok (v / 10 ^ 6)
  else if conf.reading_method = some "current_and_voltage" then
    match conf.bat_path with
    | none => .error .attributeError
    | some bat =>
      match bat.current_now, bat.voltage_now with
      | some c, some v => .ok (c * v / 10 ^ 12)
      | _, _ => .error .notFound
  else .ok (-1)

example : read_power_draw (psu_init none none) = .ok (-1) := rfl

/-! ## Core-range parsing (src/cpu.py lines 190-207)

Python strings are modelled as `List Char`.  `int()` is modelled for the
non-negative decimal literals occurring in the kernel's core-list files;
`str.split(sep)` is `splitOnChar`. -/

/-- Value of a decimal digit character, `none` for a non-digit (on which
Python `int()` raises `ValueError`). -/
def digitVal (c : Char) : Option ℕ :=
  if c.isDigit then some (c.toNat - 48) else none

/-- Left fold of `int()` digit accumulation over the characters. -/
def strToNatAux (acc : Option ℕ) (s : List Char) : Option ℕ :=
  s.foldl (fun a c =>
    match a, digitVal c with
    | some x, some d => some (x * 10 + d)
    | _, _ => none) acc

/-- Python `int(s)` on a string of decimal digits: `none` models the
`ValueError` raised on an empty or non-digit string. -/
def strToNat (s : List Char) : Option ℕ :=
  if s = [] then none else strToNatAux (some 0) s

/-- Python `s.split(sep)` for a single-character separator: `''.split(sep)`
is `['']`, and separators delimit (possibly empty) groups. -/
def splitOnChar (sep : Char) : List Char → List (List Char)
  | [] => [[]]
  | c :: cs =>
    if c = sep then [] :: splitOnChar sep cs
    else
      match splitOnChar sep cs with
      | [] => [[c]]
      | g :: gs => (c :: g) :: gs

/-- One iteration of the `cpu_ranges_to_list` loop (src/cpu.py lines
193-198): an entry containing `'-'` is split into exactly two parts and
expanded with `range(int(start), int(end)+1)`; otherwise the entry is a
single integer.  `none` models the exceptions Python raises on malformed
entries (unpacking a split with more than two parts, or a failing `int()`). -/
def parseRange (s : List Char) : Option (List ℕ) :=
  if '-' ∈ s then
    match splitOnChar '-' s with
    | [st, en] =>
      match strToNat st, strToNat en with
      | some a, some b => some (List.range' a (b + 1 - a))
      | _, _ => none
    | _ => none
  else (strToNat s).map (fun n => [n])

/-- Model of `cpu_ranges_to_list` (src/cpu.py lines 190-199), over the entry list
produced by `split(',')`; results of the entries are concatenated in
order. -/
def cpu_ranges_to_list : List (List Char) → Option (List ℕ)
  | [] => some []
  | r :: rs =>
    match parseRange r, cpu_ranges_to_list rs with
    | some xs, some ys => some (xs ++ ys)
    | _, _ => none

/-- The parsing part of `list_cores` (src/cpu.py lines 201-207): the file
content (first line, stripped) is returned as `[]` when empty, else split on
`','` and expanded. -/
def list_cores (cpu_ranges_data : List Char) : Option (List ℕ) :=
  if cpu_ranges_data = [] then some []
  else cpu_ranges_to_list (splitOnChar ',' cpu_ranges_data)

/-- A well-formed entry of a core-range string, as the spec describes them:
a single integer or an inclusive start-end range. -/
inductive CoreEntry where
  | single (n : ℕ)
  | span (a b : ℕ)

/-- Decimal rendering worker: `fuel` bounds the recursion depth (any
`fuel > n` is sufficient). -/
def natReprAux (fuel n : ℕ) : List Char :=
  match fuel with
  | 0 => []
  | fuel + 1 =>
    if n < 10 then [Char.ofNat (48 + n)]
    else natReprAux fuel (n / 10) ++ [Char.ofNat (48 + n % 10)]

/-- Decimal rendering of a natural number (digits, most significant
first). -/
def natRepr (n : ℕ) : List Char := natReprAux (n + 1) n

/-- Text of one well-formed entry (`"5"` or `"7-8"`). -/
def renderEntry : CoreEntry → List Char
  | .single n => natRepr n
  | .span a b => natRepr a ++ '-' :: natRepr b

/-- Comma-joined core-range string of a list of entries. -/
def joinComma : List (List Char) → List Char
  | [] => []
  | [p] => p
  | p :: q :: ps => p ++ ',' :: joinComma (q :: ps)

/-- Expansion a well-formed entry denotes: the explicit ordered integer
list. -/
def expandEntry : CoreEntry → List ℕ
  | .single n => [n]
  | .span a b => List.range' a (b + 1 - a)

/-- Concatenated expansion of a list of entries. -/
def expandEntries : List CoreEntry → List ℕ
  | [] => []
  | e :: es => expandEntry e ++ expandEntries es

example :
    list_cores ('0' :: "-3,5,7-8".toList) = some [0, 1, 2, 3, 5, 7, 8] := rfl

example : joinComma ((([CoreEntry.span 0 3, .single 5, .span 7 8]).map
    renderEntry)) = "0-3,5,7-8".toList := rfl

/-! ## Theorems -/

/-- C1: in the `Enabled` state, when the freshly sampled counter value is
strictly below the stored baseline (the counter wrapped), `read_power`
corrects the energy delta by adding the wrap modulus `max_energy` exactly
once before dividing. -/
theorem rapl_wrap_correction (r : Rapl) (e2 : ℤ) (t2 : ℚ)
    (hen : r.enabled = true) (hwrap : e2 < r.last_energy) :
    (r.read_power e2 t2).1 =
      ((e2 - r.last_energy + r.max_energy : ℤ) : ℚ) / (t2 - r.last_time) / 10 ^ 6 := by
  simp [Rapl.read_power, hen, hwrap]

/-- C1 witness: with `last_energy = max_energy - 100` (here `900 = 1000 -
100`) and `current_energy = 50`, the corrected delta is `150`. -/
theorem rapl_wrap_correction_witness :
    (50 : ℤ) < 900 ∧ (50 - 900 + 1000 : ℤ) = 150 ∧
      ((Rapl.mk true 1000 900 0).read_power 50 1).1 =
        ((50 - 900 + 1000 : ℤ) : ℚ) / ((1 : ℚ) - 0) / 10 ^ 6 :=
  ⟨by decide, by decide, rapl_wrap_correction ⟨true, 1000, 900, 0⟩ 50 1 rfl (by decide)⟩

/-- C2: in the `Enabled` state, when the counter strictly increases and time
advances, `read_power` returns exactly `(e2 - e1) / (t2 - t1) / 1e6`. -/
theorem rapl_power_formula (r : Rapl) (e2 : ℤ) (t2 : ℚ)
    (hen : r.enabled = true) (hinc : r.last_energy < e2) (_ht : r.last_time < t2) :
    (r.read_power e2 t2).1 =
      ((e2 : ℚ) - (r.last_energy : ℚ)) / (t2 - r.last_time) / 10 ^ 6 := by
  have hnlt : ¬ e2 < r.last_energy := by omega
  simp [Rapl.read_power, hen, hnlt]

/-- C2 witness: a concrete strictly-increasing sample pair. -/
theorem rapl_power_formula_witness :
    (10 : ℤ) < 30 ∧ (0 : ℚ) < 2 ∧
      ((Rapl.mk true 1000 10 0).read_power 30 2).1 =
        ((30 : ℚ) - ((10 : ℤ) : ℚ)) / ((2 : ℚ) - 0) / 10 ^ 6 :=
  ⟨by decide, by norm_num, rapl_power_formula ⟨true, 1000, 10, 0⟩ 30 2 rfl (by decide) (by norm_num)⟩

/-- C3: on a machine with none of the three turbo control files, the `CPU`
initialization sets `CPU['turbo_path'] = None` but never assigns
`CPU['turbo_allowed']`, so `set_turbo_state` raises `KeyError` instead of
no-opping (the write-permission probe `write_ok` is irrelevant, as it never
runs). -/
theorem set_turbo_absent_keyerror (write_ok turbo_state : Bool) (file : ℕ) :
    set_turbo_state (turbo_init false false false write_ok) file turbo_state =
      .error (.keyError "turbo_allowed") := rfl

/-- C5: requesting a governor outside `CPU['governors']` fails on the
leading `assert` (the spec's `InvalidValueError`) before any write is
issued. -/
theorem set_governor_invalid (conf : GovConf) (g : String)
    (hg : g ∉ conf.governors) :
    set_governor conf g = .error .invalidValue := by
  simp [set_governor, hg]

/-- C5 witness. -/
theorem set_governor_invalid_witness :
    "ondemand" ∉ ["performance", "powersave"] ∧
      set_governor ⟨["performance", "powersave"], fun _ => "performance", [0, 1]⟩
        "ondemand" = .error .invalidValue :=
  ⟨by decide, set_governor_invalid _ _ (by decide)⟩

/-- C6: when the requested governor is available and already active on every
online core (core 0 being online), `set_governor` issues zero writes. -/
theorem set_governor_noop (conf : GovConf) (g : String)
    (hg : g ∈ conf.governors) (h0 : 0 ∈ conf.online_cores)
    (hall : ∀ c ∈ conf.online_cores, conf.governor_file c = g) :
    set_governor conf g = .ok [] := by
  have h := hall 0 h0
  simp [set_governor, read_governor, hg, h]

/-- C6 witness. -/
theorem set_governor_noop_witness :
    "powersave" ∈ ["powersave"] ∧ 0 ∈ [0, 1] ∧
      set_governor ⟨["powersave"], fun _ => "powersave", [0, 1]⟩ "powersave" =
        .ok [] :=
  ⟨by decide, by decide,
    set_governor_noop ⟨["powersave"], fun _ => "powersave", [0, 1]⟩ "powersave"
      (by decide) (by decide) (fun c _ => rfl)⟩

/-- C10: for an available governor, `set_governor` decides from logical core
0's current governor alone: zero writes when core 0 already matches (other
cores unconstrained), and a write to every online core when it differs. -/
theorem set_governor_core0_decides (conf : GovConf) (g : String)
    (hg : g ∈ conf.governors) :
    (conf.governor_file 0 = g → set_governor conf g = .ok []) ∧
    (conf.governor_file 0 ≠ g →
      set_governor conf g =
        .ok (conf.online_cores.map (fun core_id => (core_id, g)))) := by
  constructor <;> intro h <;> simp [set_governor, read_governor, hg, h]

/-- C10 witness: core 0 matches while core 1 differs, and no write is
issued. -/
theorem set_governor_core0_decides_witness :
    "performance" ∈ ["performance", "powersave"] ∧
      (fun c => if c = 0 then "performance" else "powersave") 1 ≠ "performance" ∧
      set_governor
        ⟨["performance", "powersave"],
          fun c => if c = 0 then "performance" else "powersave", [0, 1]⟩
        "performance" = .ok [] :=
  ⟨by decide, by decide,
    (set_governor_core0_decides
      ⟨["performance", "powersave"],
        fun c => if c = 0 then "performance" else "powersave", [0, 1]⟩
      "performance" (by decide)).1 rfl⟩

/-- C9: with no detected battery device, `power_reading_method` resolves to
the unavailable marker `None`, and `read_power_draw` returns the sentinel
`-1` without raising, whatever the AC detection outcome. -/
theorem power_draw_unavailable (ac_path : Option Unit) :
    power_reading_method none = none ∧
      read_power_draw (psu_init ac_path none) = .ok (-1) :=
  ⟨rfl, rfl⟩

/-- C7: round-trip through the XOR encoding — with turbo present and
permitted, setting the turbo state and reading it back through the stub file
yields the value that was set, for both polarity conventions. -/
theorem turbo_roundtrip (inv turbo_state : Bool) (file : ℕ) :
    ∃ res, set_turbo_state ⟨true, some inv, some true⟩ file turbo_state = .ok res ∧
      read_turbo_state ⟨true, some inv, some true⟩ (turbo_file_after file res) =
        some turbo_state := by
  by_cases hf : file = 0 <;> cases inv <;> cases turbo_state <;>
    simp [set_turbo_state, read_turbo_state, turbo_file_after, hf]

/-- Writes issued by one step of the core on/offlining loop only target the
step's own sibling tuple, so a core id foreign to every remaining tuple is
never written, whatever the file state and the index. -/
theorem set_cores_go_targets (c : ℕ) (groups : List (List ℕ)) :
    ∀ (file : ℕ → Bool) (num_cores idx : ℕ),
      (∀ g' ∈ groups, c ∉ g') →
      c ∉ (set_cores_go file num_cores idx groups).map Prod.fst := by
  induction groups with
  | nil => intro file n i _; simp [set_cores_go]
  | cons g rest ih =>
    intro file n i h
    have hg : c ∉ g := h g (by simp)
    have hrest : ∀ g' ∈ rest, c ∉ g' := fun g' hmem => h g' (List.mem_cons_of_mem _ hmem)
    simp only [set_cores_go, List.map_append, List.mem_append]
    rintro (hin | hin)
    · rcases List.mem_map.1 hin with ⟨w, hw, hwc⟩
      split_ifs at hw <;>
        first
          | exact absurd hw (List.not_mem_nil w)
          | · rcases List.mem_map.1 hw with ⟨x, hx, hxw⟩
              exact hg (hwc ▸ hxw ▸ hx)
    · exact ih _ n (i + 1) hrest hin

/-- C4: for every valid `0 < n ≤ physical_cores`, `set_physical_cores_online`
passes its `assert` and issues no `online` write for any logical core of the
physical-core group containing logical core 0 — provided, as the
initialization guarantees, that this group heads `CPU['thread_siblings']`
and is disjoint from the other groups. -/
theorem set_cores_spares_core0_group (online_file : ℕ → Bool) (g : List ℕ)
    (rest : List (List ℕ)) (n : ℕ) (h0 : 0 ∈ g)
    (hdisj : ∀ g' ∈ rest, ∀ c ∈ g, c ∉ g') (hn : 0 < n)
    (hle : n ≤ (g :: rest).length) :
    set_physical_cores_online ⟨g :: rest, online_file⟩ n =
      .ok (set_cores_go online_file n 0 (g :: rest)) ∧
    ∀ c ∈ g, c ∉ (set_cores_go online_file n 0 (g :: rest)).map Prod.fst := by
  constructor
  · exact if_pos ⟨hn, hle⟩
  · intro c hc
    have hstat : group_status g online_file = true := by simp [group_status, h0]
    have hstep : set_cores_go online_file n 0 (g :: rest) =
        set_cores_go online_file n 1 rest := by
      simp [set_cores_go, hstat, hn]
    rw [hstep]
    exact set_cores_go_targets c rest online_file n 1
      (fun g' hmem => hdisj g' hmem c hc)

/-- C4 witness: two sibling groups, one online-cores target; the first group
(containing core 0) receives no write. -/
theorem set_cores_spares_core0_group_witness :
    0 ∈ [0, 2] ∧ 0 < 1 ∧ 1 ≤ ([[0, 2], [1, 3]] : List (List ℕ)).length ∧
      0 ∉ (set_cores_go (fun _ => true) 1 0 [[0, 2], [1, 3]]).map Prod.fst :=
  ⟨by decide, by decide, by decide,
    (set_cores_spares_core0_group (fun _ => true) [0, 2] [[1, 3]] 1 (by decide)
      (by decide) (by decide) (by decide)).2 0 (by decide)⟩

/-- The function `digitVal` inverts the rendering of a single digit. -/
theorem digitVal_digitChar (d : ℕ) (hd : d < 10) :
    digitVal (Char.ofNat (48 + d)) = some d := by
  interval_cases d <;> decide

/-- As a left fold, `strToNatAux` distributes over append. -/
theorem strToNatAux_append (acc : Option ℕ) (xs ys : List Char) :
    strToNatAux acc (xs ++ ys) = strToNatAux (strToNatAux acc xs) ys := by
  simp [strToNatAux]

/-- With sufficient fuel, the rendering is nonempty, consists of decimal
digits, and digit accumulation parses it back on top of any accumulator. -/
theorem natReprAux_spec : ∀ fuel n : ℕ, n < fuel →
    natReprAux fuel n ≠ [] ∧
    (∀ c ∈ natReprAux fuel n, ∃ d, d < 10 ∧ c = Char.ofNat (48 + d)) ∧
    ∀ a : ℕ, strToNatAux (some a) (natReprAux fuel n) =
      some (a * 10 ^ (natReprAux fuel n).length + n) := by
  intro fuel
  induction fuel with
  | zero => intro n hn; omega
  | succ fuel ih =>
    intro n hn
    by_cases h10 : n < 10
    · refine ⟨?_, ?_, ?_⟩ <;> simp only [natReprAux, if_pos h10]
      · simp
      · intro c hc
        simp only [List.mem_singleton] at hc
        exact ⟨n, h10, hc⟩
      · intro a
        simp [strToNatAux, digitVal_digitChar n h10]
    · have hlt : n / 10 < fuel := by omega
      obtain ⟨hne, hdig, hparse⟩ := ih (n / 10) hlt
      refine ⟨?_, ?_, ?_⟩ <;> simp only [natReprAux, if_neg h10]
      · simp
      · intro c hc
        rcases List.mem_append.1 hc with hc | hc
        · exact hdig c hc
        · simp only [List.mem_singleton] at hc
          exact ⟨n % 10, Nat.mod_lt _ (by omega), hc⟩
      · intro a
        rw [strToNatAux_append, hparse a]
        have hdv := digitVal_digitChar (n % 10) (Nat.mod_lt _ (by omega))
        simp only [strToNatAux, List.foldl_cons, List.foldl_nil, hdv,
          List.length_append, List.length_singleton]
        rw [pow_succ, ← mul_assoc]
        generalize a * 10 ^ (natReprAux fuel (n / 10)).length = m
        simp only [Option.some.injEq]
        omega

/-- The decimal rendering of `n` is nonempty. -/
theorem natRepr_ne_nil (n : ℕ) : natRepr n ≠ [] :=
  (natReprAux_spec (n + 1) n (Nat.lt_succ_self n)).1

/-- Every character of the decimal rendering is a digit character. -/
theorem natRepr_digit (n : ℕ) :
    ∀ c ∈ natRepr n, ∃ d, d < 10 ∧ c = Char.ofNat (48 + d) :=
  (natReprAux_spec (n + 1) n (Nat.lt_succ_self n)).2.1

/-- Parsing with `int()` inverts the decimal rendering. -/
theorem strToNat_natRepr (n : ℕ) : strToNat (natRepr n) = some n := by
  obtain ⟨hne, -, hparse⟩ := natReprAux_spec (n + 1) n (Nat.lt_succ_self n)
  have hne' : natRepr n ≠ [] := hne
  rw [strToNat, if_neg hne']
  have h := hparse 0
  simpa [natRepr] using h

/-- Neither separator occurs in a decimal rendering. -/
theorem natRepr_not_sep (n : ℕ) : '-' ∉ natRepr n ∧ ',' ∉ natRepr n := by
  constructor <;> intro h <;> obtain ⟨d, hd, hc⟩ := natRepr_digit n _ h <;>
    interval_cases d <;> exact absurd hc (by decide)

/-- The function `splitOnChar` never returns the empty list of groups. -/
theorem splitOnChar_ne_nil (sep : Char) (s : List Char) :
    splitOnChar sep s ≠ [] := by
  induction s with
  | nil => simp [splitOnChar]
  | cons c cs ih =>
    simp only [splitOnChar]
    split_ifs
    · simp
    · cases h : splitOnChar sep cs with
      | nil => exact absurd h ih
      | cons g gs => simp

/-- Splitting a separator-free string yields that string as the single
group. -/
theorem splitOnChar_of_not_mem (sep : Char) (xs : List Char) (h : sep ∉ xs) :
    splitOnChar sep xs = [xs] := by
  induction xs with
  | nil => rfl
  | cons c cs ih =>
    have hc : c ≠ sep := fun hc => h (hc ▸ List.mem_cons_self c cs)
    have hcs : sep ∉ cs := fun hm => h (List.mem_cons_of_mem _ hm)
    simp only [splitOnChar, if_neg hc]
    rw [ih hcs]

/-- Splitting peels off a leading separator-free group. -/
theorem splitOnChar_append (sep : Char) (xs ys : List Char) (h : sep ∉ xs) :
    splitOnChar sep (xs ++ sep :: ys) = xs :: splitOnChar sep ys := by
  induction xs with
  | nil => simp [splitOnChar]
  | cons c cs ih =>
    have hc : c ≠ sep := fun hc => h (hc ▸ List.mem_cons_self c cs)
    have hcs : sep ∉ cs := fun hm => h (List.mem_cons_of_mem _ hm)
    simp only [List.cons_append, splitOnChar, if_neg hc, List.append_eq]
    rw [ih hcs]

/-- A rendered single integer parses to the one-element list. -/
theorem parseRange_natRepr (n : ℕ) : parseRange (natRepr n) = some [n] := by
  rw [parseRange, if_neg (natRepr_not_sep n).1, strToNat_natRepr]
  rfl

/-- A rendered inclusive `start-end` entry parses to its expansion. -/
theorem parseRange_span (a b : ℕ) :
    parseRange (natRepr a ++ '-' :: natRepr b) =
      some (List.range' a (b + 1 - a)) := by
  have hmem : '-' ∈ natRepr a ++ '-' :: natRepr b :=
    List.mem_append_right _ (List.mem_cons_self _ _)
  rw [parseRange, if_pos hmem,
    splitOnChar_append '-' _ _ (natRepr_not_sep a).1,
    splitOnChar_of_not_mem '-' _ (natRepr_not_sep b).1]
  simp [strToNat_natRepr]

/-- Each well-formed entry parses to exactly its expansion. -/
theorem parseRange_renderEntry (e : CoreEntry) :
    parseRange (renderEntry e) = some (expandEntry e) := by
  cases e with
  | single n => exact parseRange_natRepr n
  | span a b => exact parseRange_span a b

/-- A rendered entry is never the empty string. -/
theorem renderEntry_ne_nil (e : CoreEntry) : renderEntry e ≠ [] := by
  cases e with
  | single n => exact natRepr_ne_nil n
  | span a b =>
    simp only [renderEntry, ne_eq, List.append_eq_nil]
    intro h
    exact absurd h.2 (by simp)

/-- No comma occurs inside a rendered entry. -/
theorem comma_not_mem_renderEntry (e : CoreEntry) : ',' ∉ renderEntry e := by
  cases e with
  | single n => exact (natRepr_not_sep n).2
  | span a b =>
    intro h
    rcases List.mem_append.1 h with h | h
    · exact (natRepr_not_sep a).2 h
    · rcases List.mem_cons.1 h with h | h
      · exact absurd h (by decide)
      · exact (natRepr_not_sep b).2 h

/-- Joining a nonempty list of nonempty parts yields a nonempty string. -/
theorem joinComma_ne_nil (p : List Char) (ps : List (List Char)) (hp : p ≠ []) :
    joinComma (p :: ps) ≠ [] := by
  cases ps with
  | nil => simpa [joinComma] using hp
  | cons q qs => simp [joinComma]

/-- Splitting the comma-joined string of comma-free parts recovers the
parts. -/
theorem splitOnChar_joinComma (parts : List (List Char))
    (hne : parts ≠ []) (hcomma : ∀ p ∈ parts, ',' ∉ p) :
    splitOnChar ',' (joinComma parts) = parts := by
  induction parts with
  | nil => exact absurd rfl hne
  | cons p ps ih =>
    cases ps with
    | nil =>
      simp only [joinComma]
      exact splitOnChar_of_not_mem ',' p (hcomma p (by simp))
    | cons q qs =>
      simp only [joinComma]
      rw [splitOnChar_append ',' _ _ (hcomma p (by simp)),
        ih (by simp) (fun r hr => hcomma r (List.mem_cons_of_mem _ hr))]

/-- Running `cpu_ranges_to_list` on a list of rendered entries succeeds with the
concatenated expansion. -/
theorem cpu_ranges_to_list_renderEntry (entries : List CoreEntry) :
    cpu_ranges_to_list (entries.map renderEntry) =
      some (expandEntries entries) := by
  induction entries with
  | nil => rfl
  | cons e es ih =>
    simp only [List.map_cons, cpu_ranges_to_list, parseRange_renderEntry, ih,
      expandEntries]

/-- The `list_cores` parsing on the comma-joined rendering of well-formed entries
yields exactly the explicit ordered expansion. -/
theorem list_cores_renderEntries (entries : List CoreEntry) :
    list_cores (joinComma (entries.map renderEntry)) =
      some (expandEntries entries) := by
  cases entries with
  | nil => rfl
  | cons e es =>
    have hjoin : joinComma ((e :: es).map renderEntry) ≠ [] := by
      simpa using joinComma_ne_nil (renderEntry e) (es.map renderEntry)
        (renderEntry_ne_nil e)
    rw [list_cores, if_neg hjoin,
      splitOnChar_joinComma _ (by simp) ?hc]
    case hc =>
      intro p hp
      rcases List.mem_map.1 hp with ⟨e', _, rfl⟩
      exact comma_not_mem_renderEntry e'
    exact cpu_ranges_to_list_renderEntry (e :: es)

/-- Wrapping each integer as a single-integer entry expands to the identity:
the canonical single-integer-per-entry form denotes the same list. -/
theorem expandEntries_map_single (xs : List ℕ) :
    expandEntries (xs.map CoreEntry.single) = xs := by
  induction xs with
  | nil => rfl
  | cons x t ih => simp [expandEntries, expandEntry, ih]

/-- Rendering single-integer entries is rendering the integers. -/
theorem map_renderEntry_single (xs : List ℕ) :
    (xs.map CoreEntry.single).map renderEntry = xs.map natRepr := by
  rw [List.map_map]
  rfl

/-- C8: for every well-formed core-range string — the comma-joined rendering
of entries that are each a single integer or an inclusive start-end range —
`list_cores` parsing produces the exact explicit ordered integer list, and
re-parsing the canonical single-integer-per-entry rendering of that result
reproduces it (parsing is idempotent). -/
theorem core_range_parsing (entries : List CoreEntry) :
    list_cores (joinComma (entries.map renderEntry)) =
      some (expandEntries entries) ∧
    list_cores (joinComma ((expandEntries entries).map natRepr)) =
      some (expandEntries entries) := by
  refine ⟨list_cores_renderEntries entries, ?_⟩
  have h := list_cores_renderEntries ((expandEntries entries).map CoreEntry.single)
  rw [map_renderEntry_single, expandEntries_map_single] at h
  exact h

example :
    list_cores ("0-3,5,7-8".toList) = some [0, 1, 2, 3, 5, 7, 8] := rfl
